import Mathlib

/-!
# PIA communicator (`pia.c`): handshake firmware of the RC6502 Apple 1 replica

A shallow embedding of `src/pia.c`.

* C `int` values are modelled by `Int`.  No arithmetic of `pia.c` can overflow
  (the only arithmetic is `c -= 576` for `576 < c < 603` and `c -= 32` for
  `96 < c < 123`), so every `int` of the target is covered by the unbounded model.
* The conversion to the return type `char` of `map_to_ascii` is explicit
  (`toChar`).  Whether plain `char` is signed is a compiler setting that is not
  part of the source, so it is a parameter (`signedChar`) of the model.
* The 8-bit I/O registers `PORTD`, `PIND`, `PINB` hold naturals; every value
  stored to `PORTD` is reduced modulo 256.
* Hardware inputs and the collaborators declared in `iox.h` and `uart.h`
  are an environment `Env` of answer streams indexed by a counter (`clock`) that
  advances at every input.  Every output and every input is appended to a trace.
-/

namespace Pia

/-! ## Constants of `pia.c` -/

/-- Expander registers named in `pia.c` (their numbers are declared in `iox.h`). -/
inductive IoxReg where
  | IODIRA0
  | GPPUA0
  | GPIOA0
  | IODIRB0
  | GPIOB0
  deriving DecidableEq, Repr

def KBD_READY : Nat := 2
def VIDEO_DA : Nat := 3
def KBD_STROBE : Nat := 4
def VIDEO_RDA : Nat := 5
def RESET_OUT : Nat := 7
def RESET_IN : Nat := 0

def VIDEO_GPIO : IoxReg := IoxReg.GPIOA0
def KBD_GPIO : IoxReg := IoxReg.GPIOB0

def KBD_INTERRUPT_ENABLE : Nat := 1
def KBD_SEND_TIMEOUT : Nat := 23

/-! ## Observable events, environment and machine state -/

/-- One observable action of the firmware. -/
inductive Event where
  /-- a store of `v` to `PORTD` (`HANDSHAKE_PORT`) -/
  | portD (v : Nat)
  /-- a load of `PIND` (`HANDSHAKE_PIN`) that read `v` -/
  | pinD (v : Nat)
  /-- a load of `PINB` (`CLOCK_PIN`) that read `v` -/
  | pinB (v : Nat)
  /-- the call `iox_write(dev, reg, val)`; `val` is the argument as the caller evaluates it -/
  | ioxWrite (dev : Nat) (reg : IoxReg) (val : Int)
  /-- the call `iox_read(dev, reg)` that returned `val` -/
  | ioxRead (dev : Nat) (reg : IoxReg) (val : Nat)
  /-- the call `uart_test()` that returned `n` -/
  | uartTest (n : Int)
  /-- the call `uart_getc()` that returned `c` -/
  | uartGetc (c : Int)
  /-- the call `uart_putc(c)` -/
  | uartPutc (c : Int)
  /-- the call `_delay_ms(n)` -/
  | delayMs (n : Nat)
  /-- the call `_delay_us(n)` -/
  | delayUs (n : Nat)
  deriving DecidableEq, Repr

/-- Answers of the outside world; the argument `Nat` is the value of the input counter. -/
structure Env where
  pind : Nat → Nat
  pinb : Nat → Nat
  ioxRead : Nat → Nat → IoxReg → Nat
  uartTest : Nat → Int
  uartGetc : Nat → Int

/-- Machine state: the output latch `PORTD`, the input counter and the trace so far. -/
structure State where
  portd : Nat
  clock : Nat
  trace : List Event
  deriving DecidableEq, Repr

/-! ## Primitive actions -/

/-- Store of the 8-bit value `v` to `PORTD`. -/
def setPortD (v : Nat) (s : State) : State :=
  { s with portd := v, trace := s.trace ++ [Event.portD v] }

/-- Load of `PIND`. -/
def getPinD (env : Env) (s : State) : Nat × State :=
  (env.pind s.clock,
    { s with clock := s.clock + 1, trace := s.trace ++ [Event.pinD (env.pind s.clock)] })

/-- Load of `PINB`. -/
def getPinB (env : Env) (s : State) : Nat × State :=
  (env.pinb s.clock,
    { s with clock := s.clock + 1, trace := s.trace ++ [Event.pinB (env.pinb s.clock)] })

def iox_write (dev : Nat) (reg : IoxReg) (val : Int) (s : State) : State :=
  { s with trace := s.trace ++ [Event.ioxWrite dev reg val] }

def iox_read (env : Env) (dev : Nat) (reg : IoxReg) (s : State) : Nat × State :=
  (env.ioxRead s.clock dev reg,
    { s with clock := s.clock + 1,
             trace := s.trace ++ [Event.ioxRead dev reg (env.ioxRead s.clock dev reg)] })

def uart_test (env : Env) (s : State) : Int × State :=
  (env.uartTest s.clock,
    { s with clock := s.clock + 1, trace := s.trace ++ [Event.uartTest (env.uartTest s.clock)] })

def uart_getc (env : Env) (s : State) : Int × State :=
  (env.uartGetc s.clock,
    { s with clock := s.clock + 1, trace := s.trace ++ [Event.uartGetc (env.uartGetc s.clock)] })

def uart_putc (c : Int) (s : State) : State :=
  { s with trace := s.trace ++ [Event.uartPutc c] }

def _delay_ms (n : Nat) (s : State) : State :=
  { s with trace := s.trace ++ [Event.delayMs n] }

def _delay_us (n : Nat) (s : State) : State :=
  { s with trace := s.trace ++ [Event.delayUs n] }

/-! ## The macros of `pia.c` -/

/-- The 8-bit value of `~(1 << b)`. -/
def notBit (b : Nat) : Nat := 255 ^^^ (1 <<< b)

/-- The 8-bit value stored by `REG &= ~(1 << b)` when the register holds `p`. -/
def clearBit8 (p b : Nat) : Nat := (p &&& notBit b) % 256

/-- The 8-bit value stored by `REG |= (1 << b)` when the register holds `p`. -/
def setBit8 (p b : Nat) : Nat := (p ||| (1 <<< b)) % 256

/-- Macro `KBD_STROBE_LO`: `HANDSHAKE_PORT &= ~(1 << KBD_STROBE)`. -/
def KBD_STROBE_LO (s : State) : State := setPortD (clearBit8 s.portd KBD_STROBE) s

/-- Macro `KBD_STROBE_HI`: `HANDSHAKE_PORT |= (1 << KBD_STROBE)`. -/
def KBD_STROBE_HI (s : State) : State := setPortD (setBit8 s.portd KBD_STROBE) s

/-- Macro `VIDEO_RDA_LO`: `HANDSHAKE_PORT &= ~(1 << VIDEO_RDA)`. -/
def VIDEO_RDA_LO (s : State) : State := setPortD (clearBit8 s.portd VIDEO_RDA) s

/-- Macro `VIDEO_RDA_HI`: `HANDSHAKE_PORT |= (1 << VIDEO_RDA)`. -/
def VIDEO_RDA_HI (s : State) : State := setPortD (setBit8 s.portd VIDEO_RDA) s

/-- Macro `RESET_LO`: `HANDSHAKE_PORT &= ~(1 << RESET_OUT)`. -/
def RESET_LO (s : State) : State := setPortD (clearBit8 s.portd RESET_OUT) s

/-- Macro `RESET_HI`: `HANDSHAKE_PORT |= (1 << RESET_OUT)`. -/
def RESET_HI (s : State) : State := setPortD (setBit8 s.portd RESET_OUT) s

/-- Macro `GET_RESETSW`: `CLOCK_PIN & (1 << RESET_IN)`. -/
def GET_RESETSW (env : Env) (s : State) : Nat × State :=
  ((getPinB env s).1 &&& (1 <<< RESET_IN), (getPinB env s).2)

/-- Macro `GET_KBD_READY`: `HANDSHAKE_PIN & (1 << KBD_READY)`. -/
def GET_KBD_READY (env : Env) (s : State) : Nat × State :=
  ((getPinD env s).1 &&& (1 <<< KBD_READY), (getPinD env s).2)

/-- Macro `GET_VIDEO_DA`: `HANDSHAKE_PIN & (1 << VIDEO_DA)`. -/
def GET_VIDEO_DA (env : Env) (s : State) : Nat × State :=
  ((getPinD env s).1 &&& (1 <<< VIDEO_DA), (getPinD env s).2)

/-! ## The functions of `pia.c` -/

/-- Conversion of an `int` to plain `char` (8 bits, two's complement when signed). -/
def toChar (signedChar : Bool) (x : Int) : Int :=
  if signedChar then (x + 128) % 256 - 128 else x % 256

/-- The body of `map_to_ascii` up to its `return`: the value of the `int` variable `c`. -/
def map_to_ascii_int (c : Int) : Int :=
  let c := if c = 203 then 27 else c
  let c := if c > 576 ∧ c < 603 then c - 576 else c
  let c := if c > 96 ∧ c < 123 then c - 32 else c
  c

/-- Function `char map_to_ascii(int c)`: the result is the variable `c` converted to `char`. -/
def map_to_ascii (signedChar : Bool) (c : Int) : Int :=
  toChar signedChar (map_to_ascii_int c)

/-- First loop of `pia_send`: `while (GET_KBD_READY == 0) { if (timeout == 0) break; else timeout--; }`. -/
def wait_ready_high (env : Env) : Nat → State → State
  | timeout, s =>
    if (GET_KBD_READY env s).1 = 0 then
      match timeout with
      | 0 => (GET_KBD_READY env s).2
      | t + 1 => wait_ready_high env t (GET_KBD_READY env s).2
    else (GET_KBD_READY env s).2

/-- Second loop of `pia_send`: `while (GET_KBD_READY != 0) { if (timeout == 0) break; else timeout--; }`. -/
def wait_ready_low (env : Env) : Nat → State → State
  | timeout, s =>
    if (GET_KBD_READY env s).1 ≠ 0 then
      match timeout with
      | 0 => (GET_KBD_READY env s).2
      | t + 1 => wait_ready_low env t (GET_KBD_READY env s).2
    else (GET_KBD_READY env s).2

/-- Function `void pia_send(int c)`. -/
def pia_send (signedChar : Bool) (env : Env) (c : Int) (s : State) : State :=
  let s := KBD_STROBE_LO s
  let c := map_to_ascii signedChar c
  if c < 96 then
    let s := iox_write 0 KBD_GPIO (Int.lor c 128) s
    let s := KBD_STROBE_HI s
    if KBD_INTERRUPT_ENABLE ≠ 0 then
      let s := wait_ready_high env KBD_SEND_TIMEOUT s
      let s := KBD_STROBE_LO s
      wait_ready_low env KBD_SEND_TIMEOUT s
    else
      KBD_STROBE_LO s
  else s

/-- Function `void serial_receive()`. -/
def serial_receive (signedChar : Bool) (env : Env) (s : State) : State :=
  if (uart_test env s).1 > 0 then
    pia_send signedChar env (uart_getc env (uart_test env s).2).1 (uart_getc env (uart_test env s).2).2
  else (uart_test env s).2

/-- Function `char send_ascii(char c)`: a `switch` whose `case '\r'` falls through into `default`. -/
def send_ascii (c : Int) (s : State) : State :=
  let s := if c = 13 then uart_putc 10 s else s
  uart_putc c s

/-- Function `void serial_transmit()`. -/
def serial_transmit (signedChar : Bool) (env : Env) (s : State) : State :=
  let s := VIDEO_RDA_HI s
  let s := _delay_us 1 s
  if (GET_VIDEO_DA env s).1 ≠ 0 then
    let s := (GET_VIDEO_DA env s).2
    let c := toChar signedChar (((iox_read env 0 VIDEO_GPIO s).1 &&& 127 : Nat) : Int)
    let s := (iox_read env 0 VIDEO_GPIO s).2
    let s := VIDEO_RDA_LO s
    send_ascii c s
  else (GET_VIDEO_DA env s).2

/-- Function `void pia_exchange(void)`. -/
def pia_exchange (signedChar : Bool) (env : Env) (s : State) : State :=
  serial_transmit signedChar env (serial_receive signedChar env s)

/-- Handler `ISR(PCINT0_vect)`: the pin-change handler of the reset switch. -/
def ISR_PCINT0 (env : Env) (s : State) : State :=
  if (GET_RESETSW env s).1 = 0 then
    let s := (GET_RESETSW env s).2
    let s := RESET_HI s
    _delay_ms 600 s
  else
    RESET_LO (GET_RESETSW env s).2

/-! ## Vocabulary of the statements -/

/-- The trace of `n` consecutive loads of `PIND` starting at input counter `k`. -/
def pinSamples (env : Env) : Nat → Nat → List Event
  | _, 0 => []
  | k, n + 1 => Event.pinD (env.pind k) :: pinSamples env (k + 1) n

/-- Accesses to the I/O expander. -/
def Event.isExpander : Event → Bool
  | Event.ioxWrite _ _ _ => true
  | Event.ioxRead _ _ _ => true
  | _ => false

/-- Loads of `PIND`. -/
def Event.isPinD : Event → Bool
  | Event.pinD _ => true
  | _ => false

/-- Actions that only the keyboard path (`serial_receive`, `pia_send`) performs. -/
def Event.isKeyboardOnly : Event → Bool
  | Event.uartTest _ => true
  | Event.uartGetc _ => true
  | Event.ioxWrite _ _ _ => true
  | _ => false

/-- Actions that only the video path (`serial_transmit`, `send_ascii`) performs. -/
def Event.isVideoOnly : Event → Bool
  | Event.delayUs _ => true
  | Event.ioxRead _ _ _ => true
  | Event.uartPutc _ => true
  | _ => false

/-- Calls of `uart_getc`. -/
def Event.isUartGetc : Event → Bool
  | Event.uartGetc _ => true
  | _ => false

/-- An environment in which every input reads 0: the reset switch is held down, `KBD_READY` and
`VIDEO_DA` stay low, the host sends nothing. -/
def quietEnv : Env := ⟨fun _ => 0, fun _ => 0, fun _ _ _ => 0, fun _ => 0, fun _ => 0⟩

/-- An environment in which every pin reads high, the expander answers `0x8D` (carriage return
with bit 7 set) and the host has the key `h` (104) pending. -/
def busyEnv : Env := ⟨fun _ => 255, fun _ => 255, fun _ _ _ => 141, fun _ => 1, fun _ => 104⟩

/-- The state after power-up: `PORTD` cleared, nothing observed yet. -/
def initState : State := ⟨0, 0, []⟩

/-! ## Conversion to `char` and the character mapper -/

theorem toChar_of_ascii (signedChar : Bool) (x : Int) (h0 : 0 ≤ x) (h1 : x ≤ 127) :
    toChar signedChar x = x := by
  unfold toChar
  cases signedChar <;> simp <;> omega

theorem toChar_sub_mod (signedChar : Bool) (x : Int) :
    (toChar signedChar x - x) % 256 = 0 := by
  unfold toChar
  cases signedChar <;> simp <;> omega

theorem toChar_range (signedChar : Bool) (x : Int) :
    if signedChar then -128 ≤ toChar signedChar x ∧ toChar signedChar x ≤ 127
    else 0 ≤ toChar signedChar x ∧ toChar signedChar x ≤ 255 := by
  unfold toChar
  cases signedChar <;> simp <;> omega

theorem toChar_eq_self_iff (signedChar : Bool) (x : Int) :
    toChar signedChar x = x ↔
      (if signedChar then -128 ≤ x ∧ x ≤ 127 else 0 ≤ x ∧ x ≤ 255) := by
  unfold toChar
  cases signedChar <;> simp <;> omega

theorem map_to_ascii_int_eq (c : Int) :
    map_to_ascii_int c =
      if c = 203 then 27
      else if 576 < c ∧ c < 603 then c - 576
      else if 96 < c ∧ c < 123 then c - 32
      else c := by
  unfold map_to_ascii_int
  simp only [gt_iff_lt]
  split_ifs <;> omega

theorem map_to_ascii_int_passthrough (c : Int) (h1 : c ≠ 203)
    (h2 : ¬ (577 ≤ c ∧ c ≤ 602)) (h3 : ¬ (97 ≤ c ∧ c ≤ 122)) :
    map_to_ascii_int c = c := by
  rw [map_to_ascii_int_eq]
  split_ifs <;> omega

theorem map_to_ascii_int_byte (c : Int) (h0 : 0 ≤ c) (h1 : c ≤ 255) :
    0 ≤ map_to_ascii_int c ∧ map_to_ascii_int c ≤ 255 ∧ map_to_ascii_int c ≠ 203 ∧
    ¬ (97 ≤ map_to_ascii_int c ∧ map_to_ascii_int c ≤ 122) := by
  rw [map_to_ascii_int_eq]
  split_ifs <;> omega

/-! ## Bits of the stored port values -/

theorem testBit_setBit8_self (p b : Nat) (hb : b < 8) :
    (setBit8 p b).testBit b = true := by
  have h256 : (256 : Nat) = 2 ^ 8 := by norm_num
  unfold setBit8
  rw [h256, Nat.testBit_mod_two_pow, Nat.testBit_or, Nat.one_shiftLeft, Nat.testBit_two_pow_self]
  simp [hb]

theorem testBit_setBit8_other (p b i : Nat) (hi : i < 8) (hne : i ≠ b) :
    (setBit8 p b).testBit i = p.testBit i := by
  have h256 : (256 : Nat) = 2 ^ 8 := by norm_num
  unfold setBit8
  rw [h256, Nat.testBit_mod_two_pow, Nat.testBit_or, Nat.one_shiftLeft,
    Nat.testBit_two_pow_of_ne (Ne.symm hne)]
  simp [hi]

theorem testBit_clearBit8_self (p b : Nat) (hb : b < 8) :
    (clearBit8 p b).testBit b = false := by
  have h256 : (256 : Nat) = 2 ^ 8 := by norm_num
  have h255 : (255 : Nat) = 2 ^ 8 - 1 := by norm_num
  unfold clearBit8 notBit
  rw [h256, Nat.testBit_mod_two_pow, Nat.testBit_and, Nat.testBit_xor, Nat.one_shiftLeft,
    Nat.testBit_two_pow_self, h255, Nat.testBit_two_pow_sub_one]
  simp [hb]

theorem testBit_clearBit8_other (p b i : Nat) (hi : i < 8) (hne : i ≠ b) :
    (clearBit8 p b).testBit i = p.testBit i := by
  have h256 : (256 : Nat) = 2 ^ 8 := by norm_num
  have h255 : (255 : Nat) = 2 ^ 8 - 1 := by norm_num
  unfold clearBit8 notBit
  rw [h256, Nat.testBit_mod_two_pow, Nat.testBit_and, Nat.testBit_xor, Nat.one_shiftLeft,
    Nat.testBit_two_pow_of_ne (Ne.symm hne), h255, Nat.testBit_two_pow_sub_one]
  simp [hi]

/-! ## The two polling loops -/

theorem pinSamples_length (env : Env) (k n : Nat) : (pinSamples env k n).length = n := by
  induction n generalizing k with
  | zero => rfl
  | succ n ih => simp [pinSamples, ih]

theorem pinSamples_filter (env : Env) (f : Event → Bool) (hf : ∀ v, f (Event.pinD v) = false)
    (k n : Nat) : (pinSamples env k n).filter f = [] := by
  induction n generalizing k with
  | zero => rfl
  | succ n ih => simp [pinSamples, ih, hf]

theorem pinSamples_mem (env : Env) (e : Event) (k n : Nat) (h : e ∈ pinSamples env k n) :
    ∃ v, e = Event.pinD v := by
  induction n generalizing k with
  | zero => simp [pinSamples] at h
  | succ n ih =>
    simp only [pinSamples, List.mem_cons] at h
    rcases h with h | h
    · exact ⟨_, h⟩
    · exact ih _ h

theorem GET_KBD_READY_fst (env : Env) (s : State) :
    (GET_KBD_READY env s).1 = env.pind s.clock &&& (1 <<< KBD_READY) := rfl

theorem GET_KBD_READY_snd (env : Env) (s : State) :
    (GET_KBD_READY env s).2 =
      ⟨s.portd, s.clock + 1, s.trace ++ pinSamples env s.clock 1⟩ := rfl

theorem wait_ready_high_zero (env : Env) (s : State) :
    wait_ready_high env 0 s = (GET_KBD_READY env s).2 := by
  rw [wait_ready_high]; split_ifs <;> rfl

theorem wait_ready_high_succ (env : Env) (t : Nat) (s : State) :
    wait_ready_high env (t + 1) s =
      if (GET_KBD_READY env s).1 = 0 then wait_ready_high env t (GET_KBD_READY env s).2
      else (GET_KBD_READY env s).2 := by
  rw [wait_ready_high]

theorem wait_ready_low_zero (env : Env) (s : State) :
    wait_ready_low env 0 s = (GET_KBD_READY env s).2 := by
  rw [wait_ready_low]; split_ifs <;> rfl

theorem wait_ready_low_succ (env : Env) (t : Nat) (s : State) :
    wait_ready_low env (t + 1) s =
      if (GET_KBD_READY env s).1 ≠ 0 then wait_ready_low env t (GET_KBD_READY env s).2
      else (GET_KBD_READY env s).2 := by
  rw [wait_ready_low]

/-- The first loop started with counter `t` takes `n` samples, `1 ≤ n ≤ t + 1`; every sample but
the last read `KBD_READY` low, and if it stopped before the counter ran out the last one read
it high. -/
theorem wait_ready_high_spec (env : Env) (t : Nat) (s : State) :
    ∃ n, 1 ≤ n ∧ n ≤ t + 1 ∧
      wait_ready_high env t s = ⟨s.portd, s.clock + n, s.trace ++ pinSamples env s.clock n⟩ ∧
      (∀ i, i + 1 < n → env.pind (s.clock + i) &&& (1 <<< KBD_READY) = 0) ∧
      (n ≤ t → env.pind (s.clock + (n - 1)) &&& (1 <<< KBD_READY) ≠ 0) := by
  induction t generalizing s with
  | zero =>
    refine ⟨1, le_refl _, le_refl _, ?_, ?_, ?_⟩
    · rw [wait_ready_high_zero, GET_KBD_READY_snd]
    · intro i hi; omega
    · intro h; omega
  | succ t ih =>
    rw [wait_ready_high_succ]
    by_cases h : (GET_KBD_READY env s).1 = 0
    · rw [if_pos h]
      obtain ⟨n, h1, h2, h3, h4, h5⟩ := ih (GET_KBD_READY env s).2
      rw [GET_KBD_READY_fst] at h
      refine ⟨n + 1, by omega, by omega, ?_, ?_, ?_⟩
      · rw [h3, GET_KBD_READY_snd]
        simp [pinSamples, Nat.add_assoc, Nat.add_comm 1 n]
      · intro i hi
        cases i with
        | zero => simpa using h
        | succ j =>
          have := h4 j (by omega)
          simpa [GET_KBD_READY_snd, Nat.add_assoc, Nat.add_comm 1 j] using this
      · intro hn
        have := h5 (by omega)
        have e : s.clock + (n + 1 - 1) = s.clock + 1 + (n - 1) := by omega
        rw [e]
        simpa [GET_KBD_READY_snd] using this
    · rw [if_neg h]
      rw [GET_KBD_READY_fst] at h
      refine ⟨1, le_refl _, by omega, ?_, ?_, ?_⟩
      · rw [GET_KBD_READY_snd]
      · intro i hi; omega
      · intro _; simpa using h

/-- The second loop started with counter `t` takes `n` samples, `1 ≤ n ≤ t + 1`; every sample but
the last read `KBD_READY` high, and if it stopped before the counter ran out the last one read
it low. -/
theorem wait_ready_low_spec (env : Env) (t : Nat) (s : State) :
    ∃ n, 1 ≤ n ∧ n ≤ t + 1 ∧
      wait_ready_low env t s = ⟨s.portd, s.clock + n, s.trace ++ pinSamples env s.clock n⟩ ∧
      (∀ i, i + 1 < n → env.pind (s.clock + i) &&& (1 <<< KBD_READY) ≠ 0) ∧
      (n ≤ t → env.pind (s.clock + (n - 1)) &&& (1 <<< KBD_READY) = 0) := by
  induction t generalizing s with
  | zero =>
    refine ⟨1, le_refl _, le_refl _, ?_, ?_, ?_⟩
    · rw [wait_ready_low_zero, GET_KBD_READY_snd]
    · intro i hi; omega
    · intro h; omega
  | succ t ih =>
    rw [wait_ready_low_succ]
    by_cases h : (GET_KBD_READY env s).1 ≠ 0
    · rw [if_pos h]
      obtain ⟨n, h1, h2, h3, h4, h5⟩ := ih (GET_KBD_READY env s).2
      rw [GET_KBD_READY_fst] at h
      refine ⟨n + 1, by omega, by omega, ?_, ?_, ?_⟩
      · rw [h3, GET_KBD_READY_snd]
        simp [pinSamples, Nat.add_assoc, Nat.add_comm 1 n]
      · intro i hi
        cases i with
        | zero => simpa using h
        | succ j =>
          have := h4 j (by omega)
          simpa [GET_KBD_READY_snd, Nat.add_assoc, Nat.add_comm 1 j] using this
      · intro hn
        have := h5 (by omega)
        have e : s.clock + (n + 1 - 1) = s.clock + 1 + (n - 1) := by omega
        rw [e]
        simpa [GET_KBD_READY_snd] using this
    · rw [if_neg h]
      rw [GET_KBD_READY_fst] at h
      refine ⟨1, le_refl _, by omega, ?_, ?_, ?_⟩
      · rw [GET_KBD_READY_snd]
      · intro i hi; omega
      · intro _; simpa using h

/-! ## Keyboard channel: `pia_send` -/

theorem pia_send_of_ge (signedChar : Bool) (env : Env) (c : Int) (s : State)
    (h : 96 ≤ map_to_ascii signedChar c) :
    pia_send signedChar env c s = KBD_STROBE_LO s := by
  unfold pia_send
  simp only
  rw [if_neg (by omega)]

theorem pia_send_of_lt (signedChar : Bool) (env : Env) (c : Int) (s : State)
    (h : map_to_ascii signedChar c < 96) :
    pia_send signedChar env c s =
      wait_ready_low env KBD_SEND_TIMEOUT (KBD_STROBE_LO (wait_ready_high env KBD_SEND_TIMEOUT
        (KBD_STROBE_HI (iox_write 0 KBD_GPIO (Int.lor (map_to_ascii signedChar c) 128)
          (KBD_STROBE_LO s))))) := by
  unfold pia_send
  simp only
  rw [if_pos h, if_pos (by decide)]

/-- The complete effect of `pia_send` on the transfer path: the three port values, the single
expander write and the two runs of `PIND` samples, with the length and the stop condition of each
run. -/
theorem pia_send_transfer_shape (signedChar : Bool) (env : Env) (c : Int) (s : State)
    (h : map_to_ascii signedChar c < 96) :
    ∃ n m, 1 ≤ n ∧ n ≤ KBD_SEND_TIMEOUT + 1 ∧ 1 ≤ m ∧ m ≤ KBD_SEND_TIMEOUT + 1 ∧
      pia_send signedChar env c s =
        ⟨clearBit8 (setBit8 (clearBit8 s.portd KBD_STROBE) KBD_STROBE) KBD_STROBE,
         s.clock + n + m,
         s.trace ++
           [Event.portD (clearBit8 s.portd KBD_STROBE),
            Event.ioxWrite 0 KBD_GPIO (Int.lor (map_to_ascii signedChar c) 128),
            Event.portD (setBit8 (clearBit8 s.portd KBD_STROBE) KBD_STROBE)] ++
           pinSamples env s.clock n ++
           [Event.portD (clearBit8 (setBit8 (clearBit8 s.portd KBD_STROBE) KBD_STROBE) KBD_STROBE)] ++
           pinSamples env (s.clock + n) m⟩ ∧
      (∀ i, i + 1 < n → env.pind (s.clock + i) &&& (1 <<< KBD_READY) = 0) ∧
      (n ≤ KBD_SEND_TIMEOUT → env.pind (s.clock + (n - 1)) &&& (1 <<< KBD_READY) ≠ 0) ∧
      (∀ i, i + 1 < m → env.pind (s.clock + n + i) &&& (1 <<< KBD_READY) ≠ 0) ∧
      (m ≤ KBD_SEND_TIMEOUT → env.pind (s.clock + n + (m - 1)) &&& (1 <<< KBD_READY) = 0) := by
  rw [pia_send_of_lt signedChar env c s h]
  obtain ⟨n, hn1, hn2, hn3, hn4, hn5⟩ := wait_ready_high_spec env KBD_SEND_TIMEOUT
    (KBD_STROBE_HI (iox_write 0 KBD_GPIO (Int.lor (map_to_ascii signedChar c) 128)
      (KBD_STROBE_LO s)))
  obtain ⟨m, hm1, hm2, hm3, hm4, hm5⟩ := wait_ready_low_spec env KBD_SEND_TIMEOUT
    (KBD_STROBE_LO (wait_ready_high env KBD_SEND_TIMEOUT
      (KBD_STROBE_HI (iox_write 0 KBD_GPIO (Int.lor (map_to_ascii signedChar c) 128)
        (KBD_STROBE_LO s)))))
  refine ⟨n, m, hn1, hn2, hm1, hm2, ?_, ?_, ?_, ?_, ?_⟩
  · rw [hm3, hn3]
    simp [KBD_STROBE_LO, KBD_STROBE_HI, iox_write, setPortD]
  · simpa [KBD_STROBE_LO, KBD_STROBE_HI, iox_write, setPortD] using hn4
  · simpa [KBD_STROBE_LO, KBD_STROBE_HI, iox_write, setPortD] using hn5
  · rw [hn3] at hm4
    simpa [KBD_STROBE_LO, KBD_STROBE_HI, iox_write, setPortD] using hm4
  · rw [hn3] at hm5
    simpa [KBD_STROBE_LO, KBD_STROBE_HI, iox_write, setPortD] using hm5

/-- C1: when the mapped value `v = map_to_ascii c` is below 96, `pia_send c` returns with
`KBD_STROBE` low, its only expander access is one `iox_write(0, KBD_GPIO, v | 128)`, and what it
does is, in order: a port store with `KBD_STROBE` low, that write, a port store with `KBD_STROBE`
high, samples of `PIND`, a port store with `KBD_STROBE` low, samples of `PIND`; this holds for
every behaviour `env.pind` of the `KBD_READY` line. -/
theorem pia_send_writes_once (signedChar : Bool) (env : Env) (c : Int) (s : State)
    (h : map_to_ascii signedChar c < 96) :
    (pia_send signedChar env c s).portd.testBit KBD_STROBE = false ∧
    (pia_send signedChar env c s).trace.filter Event.isExpander =
      s.trace.filter Event.isExpander ++
        [Event.ioxWrite 0 KBD_GPIO (Int.lor (map_to_ascii signedChar c) 128)] ∧
    ∃ n m p0 p1 p2,
      (pia_send signedChar env c s).trace =
        s.trace ++
          [Event.portD p0,
           Event.ioxWrite 0 KBD_GPIO (Int.lor (map_to_ascii signedChar c) 128),
           Event.portD p1] ++
          pinSamples env s.clock n ++ [Event.portD p2] ++ pinSamples env (s.clock + n) m ∧
      p0.testBit KBD_STROBE = false ∧ p1.testBit KBD_STROBE = true ∧
      p2.testBit KBD_STROBE = false ∧ (pia_send signedChar env c s).portd = p2 := by
  obtain ⟨n, m, -, -, -, -, heq, -⟩ := pia_send_transfer_shape signedChar env c s h
  have hK : KBD_STROBE < 8 := by decide
  refine ⟨?_, ?_, n, m, clearBit8 s.portd KBD_STROBE,
    setBit8 (clearBit8 s.portd KBD_STROBE) KBD_STROBE,
    clearBit8 (setBit8 (clearBit8 s.portd KBD_STROBE) KBD_STROBE) KBD_STROBE,
    ?_, testBit_clearBit8_self _ _ hK, testBit_setBit8_self _ _ hK,
    testBit_clearBit8_self _ _ hK, ?_⟩
  · rw [heq]; exact testBit_clearBit8_self _ _ hK
  · rw [heq]
    simp [List.filter_append, pinSamples_filter env Event.isExpander (fun _ => rfl),
      Event.isExpander]
  · rw [heq]
  · rw [heq]

/-- C1, witness: the key `h` (104) is mapped to 72 and written as 200, here with a peer that
never acknowledges. -/
theorem pia_send_writes_once_witness :
    map_to_ascii true 104 < 96 ∧
    (pia_send true quietEnv 104 initState).trace.filter Event.isExpander =
      [Event.ioxWrite 0 KBD_GPIO 200] :=
  ⟨by decide, (pia_send_writes_once true quietEnv 104 initState (by decide)).2.1⟩

/-- C2: when the mapped value is 96 or more, `pia_send c` only stores `PORTD` once, with
`KBD_STROBE` cleared and every other bit as before: no expander access, no sample, strobe never
high. -/
theorem pia_send_discards (signedChar : Bool) (env : Env) (c : Int) (s : State)
    (h : 96 ≤ map_to_ascii signedChar c) :
    pia_send signedChar env c s =
      ⟨clearBit8 s.portd KBD_STROBE, s.clock,
       s.trace ++ [Event.portD (clearBit8 s.portd KBD_STROBE)]⟩ ∧
    (clearBit8 s.portd KBD_STROBE).testBit KBD_STROBE = false ∧
    ∀ i, i < 8 → i ≠ KBD_STROBE →
      (clearBit8 s.portd KBD_STROBE).testBit i = s.portd.testBit i := by
  refine ⟨?_, testBit_clearBit8_self _ _ (by decide), ?_⟩
  · rw [pia_send_of_ge signedChar env c s h]
    rfl
  · intro i hi hne
    exact testBit_clearBit8_other _ _ _ hi hne

/-- C2, witness: the codes 96, 123 and 127 are mapped to themselves, and `pia_send 123` from a
state with strobe and `VIDEO_RDA` high leaves `VIDEO_RDA` alone. -/
theorem pia_send_discards_witness :
    96 ≤ map_to_ascii false 96 ∧ 96 ≤ map_to_ascii false 127 ∧ 96 ≤ map_to_ascii false 123 ∧
    pia_send false busyEnv 123 ⟨48, 0, []⟩ = ⟨32, 0, [Event.portD 32]⟩ :=
  ⟨by decide, by decide, by decide,
    (pia_send_discards false busyEnv 123 ⟨48, 0, []⟩ (by decide)).1⟩

/-! ## Character mapper: `map_to_ascii` -/

/-- C3: `map_to_ascii 203 = 27`; for `577 ≤ c ≤ 602` the result is `c - 576`, a value in 1..26;
for `97 ≤ c ≤ 122` the result is `c - 32`, a value in 65..90. -/
theorem map_to_ascii_remaps (signedChar : Bool) :
    map_to_ascii signedChar 203 = 27 ∧
    (∀ c : Int, 577 ≤ c → c ≤ 602 →
      map_to_ascii signedChar c = c - 576 ∧ 1 ≤ c - 576 ∧ c - 576 ≤ 26) ∧
    (∀ c : Int, 97 ≤ c → c ≤ 122 →
      map_to_ascii signedChar c = c - 32 ∧ 65 ≤ c - 32 ∧ c - 32 ≤ 90) := by
  refine ⟨?_, ?_, ?_⟩
  · cases signedChar <;> decide
  · intro c h1 h2
    refine ⟨?_, by omega, by omega⟩
    unfold map_to_ascii
    rw [map_to_ascii_int_eq, if_neg (by omega), if_pos (by omega)]
    exact toChar_of_ascii _ _ (by omega) (by omega)
  · intro c h1 h2
    refine ⟨?_, by omega, by omega⟩
    unfold map_to_ascii
    rw [map_to_ascii_int_eq, if_neg (by omega), if_neg (by omega), if_pos (by omega)]
    exact toChar_of_ascii _ _ (by omega) (by omega)

/-- C3, witness: 588 is mapped to 12 and 104 to 72. -/
theorem map_to_ascii_remaps_witness :
    ((577 : Int) ≤ 588 ∧ (588 : Int) ≤ 602 ∧ map_to_ascii true 588 = 12) ∧
    ((97 : Int) ≤ 104 ∧ (104 : Int) ≤ 122 ∧ map_to_ascii true 104 = 72) :=
  ⟨⟨by decide, by decide,
      ((map_to_ascii_remaps true).2.1 588 (by decide) (by decide)).1⟩,
   ⟨by decide, by decide,
      ((map_to_ascii_remaps true).2.2 104 (by decide) (by decide)).1⟩⟩

/-- C8, counterexample: 321 is outside the three transform ranges, yet `map_to_ascii 321` is 65
whether `char` is signed or not, and `pia_send 321` writes 193 to the keyboard register; 200 is
returned as -56 when `char` is signed. -/
theorem map_to_ascii_321_not_unchanged :
    (321 : Int) ≠ 203 ∧ ¬ ((577 : Int) ≤ 321 ∧ (321 : Int) ≤ 602) ∧
    ¬ ((97 : Int) ≤ 321 ∧ (321 : Int) ≤ 122) ∧
    map_to_ascii true 321 = 65 ∧ map_to_ascii false 321 = 65 ∧
    map_to_ascii true 321 ≠ 321 ∧ map_to_ascii false 321 ≠ 321 ∧
    map_to_ascii true 200 = -56 ∧
    Event.ioxWrite 0 KBD_GPIO 193 ∈ (pia_send false quietEnv 321 initState).trace := by
  decide

/-- C8, amended: for `c` outside the three transform ranges `map_to_ascii c` is `c` converted to
`char`: congruent to `c` modulo 256 and inside the range of `char`; it is `c` itself exactly when
`c` fits in `char`, in particular for `0 ≤ c ≤ 127`; and `pia_send` compares that converted value
with 96. -/
theorem map_to_ascii_passthrough_char (signedChar : Bool) (env : Env) (c : Int) (s : State)
    (h1 : c ≠ 203) (h2 : ¬ (577 ≤ c ∧ c ≤ 602)) (h3 : ¬ (97 ≤ c ∧ c ≤ 122)) :
    map_to_ascii signedChar c = toChar signedChar c ∧
    (map_to_ascii signedChar c - c) % 256 = 0 ∧
    (if signedChar then -128 ≤ map_to_ascii signedChar c ∧ map_to_ascii signedChar c ≤ 127
     else 0 ≤ map_to_ascii signedChar c ∧ map_to_ascii signedChar c ≤ 255) ∧
    (map_to_ascii signedChar c = c ↔
      (if signedChar then -128 ≤ c ∧ c ≤ 127 else 0 ≤ c ∧ c ≤ 255)) ∧
    (0 ≤ c → c ≤ 127 → map_to_ascii signedChar c = c) ∧
    (96 ≤ toChar signedChar c → pia_send signedChar env c s = KBD_STROBE_LO s) ∧
    (toChar signedChar c < 96 →
      (pia_send signedChar env c s).trace.filter Event.isExpander =
        s.trace.filter Event.isExpander ++
          [Event.ioxWrite 0 KBD_GPIO (Int.lor (toChar signedChar c) 128)]) := by
  have hm : map_to_ascii signedChar c = toChar signedChar c := by
    unfold map_to_ascii
    rw [map_to_ascii_int_passthrough c h1 h2 h3]
  refine ⟨hm, ?_, ?_, ?_, ?_, ?_, ?_⟩
  · rw [hm]; exact toChar_sub_mod _ _
  · rw [hm]; exact toChar_range _ _
  · rw [hm]; exact toChar_eq_self_iff _ _
  · intro h0 h127
    rw [hm]; exact toChar_of_ascii _ _ h0 h127
  · intro h
    exact pia_send_of_ge signedChar env c s (by rw [hm]; exact h)
  · intro h
    obtain ⟨n, m, -, -, -, -, heq, -⟩ :=
      pia_send_transfer_shape signedChar env c s (by rw [hm]; exact h)
    rw [heq, hm]
    simp [List.filter_append, pinSamples_filter env Event.isExpander (fun _ => rfl),
      Event.isExpander]

/-- C8, witness: 321 is returned as 65 and 64 (`@`) as itself. -/
theorem map_to_ascii_passthrough_char_witness :
    map_to_ascii true 321 = toChar true 321 ∧ map_to_ascii true 64 = 64 :=
  ⟨(map_to_ascii_passthrough_char true quietEnv 321 initState
      (by decide) (by decide) (by decide)).1,
   (map_to_ascii_passthrough_char true quietEnv 64 initState
      (by decide) (by decide) (by decide)).2.2.2.2.1 (by decide) (by decide)⟩

/-- C9: on every `c` in 0..255 `map_to_ascii` (a total function) is idempotent. -/
theorem map_to_ascii_idempotent (signedChar : Bool) (c : Int) (h0 : 0 ≤ c) (h1 : c ≤ 255) :
    map_to_ascii signedChar (map_to_ascii signedChar c) = map_to_ascii signedChar c := by
  obtain ⟨m0, m1, m2, m3⟩ := map_to_ascii_int_byte c h0 h1
  unfold map_to_ascii
  generalize map_to_ascii_int c = m at *
  have hr : map_to_ascii_int (toChar signedChar m) = toChar signedChar m := by
    apply map_to_ascii_int_passthrough
    all_goals (unfold toChar; cases signedChar <;> simp <;> omega)
  rw [hr]
  unfold toChar
  cases signedChar <;> simp

/-- C9, witness: the Escape code 203 and a byte above 127. -/
theorem map_to_ascii_idempotent_witness :
    ((0 : Int) ≤ 203 ∧ (203 : Int) ≤ 255 ∧
      map_to_ascii true (map_to_ascii true 203) = map_to_ascii true 203) ∧
    map_to_ascii true (map_to_ascii true 200) = map_to_ascii true 200 :=
  ⟨⟨by decide, by decide, map_to_ascii_idempotent true 203 (by decide) (by decide)⟩,
    map_to_ascii_idempotent true 200 (by decide) (by decide)⟩

/-! ## Bounded polling in `pia_send` -/

/-- C10, counterexample: with `KBD_READY` never high the first wait of `pia_send` takes 24
samples of `PIND`, one more than `KBD_SEND_TIMEOUT`; with `KBD_READY` always high so does the
second wait. -/
theorem wait_ready_high_takes_24_samples :
    (wait_ready_high quietEnv KBD_SEND_TIMEOUT initState).trace =
      List.replicate 24 (Event.pinD 0) ∧
    ¬ ((wait_ready_high quietEnv KBD_SEND_TIMEOUT initState).trace.length ≤ KBD_SEND_TIMEOUT) ∧
    (wait_ready_low busyEnv KBD_SEND_TIMEOUT initState).trace =
      List.replicate 24 (Event.pinD 255) ∧
    (pia_send true quietEnv 104 initState).trace =
      [Event.portD 0, Event.ioxWrite 0 KBD_GPIO 200, Event.portD 16] ++
        List.replicate 24 (Event.pinD 0) ++ [Event.portD 0] ++ [Event.pinD 0] := by
  decide

/-- C10, amended: `pia_send` always returns (it is a total function), and on the transfer path
its first wait takes `n` and its second wait `m` samples of `PIND` with
`1 ≤ n, m ≤ KBD_SEND_TIMEOUT + 1 = 24`: the counter is decremented 23 times and the loop is left
at the sample after that.  A wait that stops earlier stops at the first sample that shows the
level it waits for.  When `KBD_READY` never goes high the first wait gives up after exactly 24
samples and the second returns after one.  The two runs of samples are `pinSamples .. n` and
`pinSamples .. m`, lists of `n` and `m` events. -/
theorem pia_send_polls_bounded (signedChar : Bool) (env : Env) (c : Int) (s : State)
    (h : map_to_ascii signedChar c < 96) :
    ∃ n m, 1 ≤ n ∧ n ≤ KBD_SEND_TIMEOUT + 1 ∧ 1 ≤ m ∧ m ≤ KBD_SEND_TIMEOUT + 1 ∧
      (pia_send signedChar env c s).clock = s.clock + n + m ∧
      (pia_send signedChar env c s).trace =
        s.trace ++
          [Event.portD (clearBit8 s.portd KBD_STROBE),
           Event.ioxWrite 0 KBD_GPIO (Int.lor (map_to_ascii signedChar c) 128),
           Event.portD (setBit8 (clearBit8 s.portd KBD_STROBE) KBD_STROBE)] ++
          pinSamples env s.clock n ++
          [Event.portD (clearBit8 (setBit8 (clearBit8 s.portd KBD_STROBE) KBD_STROBE) KBD_STROBE)] ++
          pinSamples env (s.clock + n) m ∧
      (∀ i, i + 1 < n → env.pind (s.clock + i) &&& (1 <<< KBD_READY) = 0) ∧
      (n ≤ KBD_SEND_TIMEOUT → env.pind (s.clock + (n - 1)) &&& (1 <<< KBD_READY) ≠ 0) ∧
      (∀ i, i + 1 < m → env.pind (s.clock + n + i) &&& (1 <<< KBD_READY) ≠ 0) ∧
      (m ≤ KBD_SEND_TIMEOUT → env.pind (s.clock + n + (m - 1)) &&& (1 <<< KBD_READY) = 0) ∧
      ((∀ k, env.pind k &&& (1 <<< KBD_READY) = 0) → n = KBD_SEND_TIMEOUT + 1 ∧ m = 1) ∧
      (pinSamples env s.clock n).length = n ∧ (pinSamples env (s.clock + n) m).length = m := by
  obtain ⟨n, m, hn1, hn2, hm1, hm2, heq, h1, h2, h3, h4⟩ :=
    pia_send_transfer_shape signedChar env c s h
  refine ⟨n, m, hn1, hn2, hm1, hm2, ?_, ?_, h1, h2, h3, h4, ?_, pinSamples_length _ _ _,
    pinSamples_length _ _ _⟩
  · rw [heq]
  · rw [heq]
  · intro hlow
    constructor
    · by_contra hne
      exact h2 (by omega) (hlow _)
    · by_contra hne
      exact h3 0 (by omega) (hlow _)

/-- C10, witness: the key `h` with a peer that never raises `KBD_READY`. -/
theorem pia_send_polls_bounded_witness :
    map_to_ascii true 104 < 96 ∧
    ∃ n m, 1 ≤ n ∧ n ≤ KBD_SEND_TIMEOUT + 1 ∧ 1 ≤ m ∧ m ≤ KBD_SEND_TIMEOUT + 1 ∧
      (pia_send true quietEnv 104 initState).clock = initState.clock + n + m :=
  ⟨by decide,
    match pia_send_polls_bounded true quietEnv 104 initState (by decide) with
    | ⟨n, m, h1, h2, h3, h4, h5, _⟩ => ⟨n, m, h1, h2, h3, h4, h5⟩⟩

/-! ## Video channel output: `send_ascii` -/

/-- C5: `send_ascii 13` appends the two bytes 10, 13 to the serial output and `send_ascii c`
for any other `c` appends the single byte `c`; nothing else changes. -/
theorem send_ascii_output (s : State) :
    send_ascii 13 s = { s with trace := s.trace ++ [Event.uartPutc 10, Event.uartPutc 13] } ∧
    ∀ c : Int, c ≠ 13 → send_ascii c s = { s with trace := s.trace ++ [Event.uartPutc c] } := by
  constructor
  · simp [send_ascii, uart_putc]
  · intro c hc
    simp [send_ascii, uart_putc, hc]

/-- C5, witness: `send_ascii 'A'` emits only `'A'` (65). -/
theorem send_ascii_output_witness :
    (65 : Int) ≠ 13 ∧ send_ascii 65 initState = ⟨0, 0, [Event.uartPutc 65]⟩ :=
  ⟨by decide, (send_ascii_output initState).2 65 (by decide)⟩

/-! ## Reset controller: `ISR(PCINT0_vect)` -/

/-- C6, counterexample: run with the switch pressed (`PINB` reads 0) the handler stores
`PORTD` once, with `RESET_OUT` set, waits 600 ms and returns with `RESET_OUT` still high. -/
theorem ISR_PCINT0_pressed_returns_high :
    (GET_RESETSW quietEnv initState).1 = 0 ∧
    ISR_PCINT0 quietEnv initState =
      ⟨128, 1, [Event.pinB 0, Event.portD 128, Event.delayMs 600]⟩ ∧
    (ISR_PCINT0 quietEnv initState).portd.testBit RESET_OUT = true := by
  decide

/-- C6, amended: when the handler runs with the switch reading pressed (`RESET_IN` low) it
drives `RESET_OUT` high, waits 600 ms and returns with `RESET_OUT` high; the line is released by
a run of the handler in which the switch reads released (`RESET_IN` high): that run stores
`PORTD` with `RESET_OUT` low and returns without any delay.  No other bit of `PORTD` changes. -/
theorem ISR_PCINT0_reset_follows_switch (env : Env) (s : State) :
    (env.pinb s.clock &&& (1 <<< RESET_IN) = 0 →
      ISR_PCINT0 env s =
        ⟨setBit8 s.portd RESET_OUT, s.clock + 1,
         s.trace ++ [Event.pinB (env.pinb s.clock), Event.portD (setBit8 s.portd RESET_OUT),
                     Event.delayMs 600]⟩ ∧
      (ISR_PCINT0 env s).portd.testBit RESET_OUT = true) ∧
    (env.pinb s.clock &&& (1 <<< RESET_IN) ≠ 0 →
      ISR_PCINT0 env s =
        ⟨clearBit8 s.portd RESET_OUT, s.clock + 1,
         s.trace ++ [Event.pinB (env.pinb s.clock), Event.portD (clearBit8 s.portd RESET_OUT)]⟩ ∧
      (ISR_PCINT0 env s).portd.testBit RESET_OUT = false) ∧
    ∀ i, i < 8 → i ≠ RESET_OUT → (ISR_PCINT0 env s).portd.testBit i = s.portd.testBit i := by
  have hfst : (GET_RESETSW env s).1 = env.pinb s.clock &&& (1 <<< RESET_IN) := rfl
  have hR : RESET_OUT < 8 := by decide
  refine ⟨?_, ?_, ?_⟩
  · intro h
    have heq : ISR_PCINT0 env s =
        ⟨setBit8 s.portd RESET_OUT, s.clock + 1,
         s.trace ++ [Event.pinB (env.pinb s.clock), Event.portD (setBit8 s.portd RESET_OUT),
                     Event.delayMs 600]⟩ := by
      unfold ISR_PCINT0
      rw [if_pos (by rw [hfst]; exact h)]
      simp [GET_RESETSW, getPinB, RESET_HI, setPortD, _delay_ms]
    refine ⟨heq, ?_⟩
    rw [heq]
    exact testBit_setBit8_self _ _ hR
  · intro h
    have heq : ISR_PCINT0 env s =
        ⟨clearBit8 s.portd RESET_OUT, s.clock + 1,
         s.trace ++ [Event.pinB (env.pinb s.clock),
                     Event.portD (clearBit8 s.portd RESET_OUT)]⟩ := by
      unfold ISR_PCINT0
      rw [if_neg (by rw [hfst]; exact h)]
      simp [GET_RESETSW, getPinB, RESET_LO, setPortD]
    refine ⟨heq, ?_⟩
    rw [heq]
    exact testBit_clearBit8_self _ _ hR
  · intro i hi hne
    unfold ISR_PCINT0
    split_ifs
    · exact testBit_setBit8_other _ _ _ hi hne
    · exact testBit_clearBit8_other _ _ _ hi hne

/-- C6, witness: a switch press followed by its release; `RESET_OUT` is high after the first
run of the handler and low after the second. -/
theorem ISR_PCINT0_reset_follows_switch_witness :
    (quietEnv.pinb initState.clock &&& (1 <<< RESET_IN) = 0 ∧
      (ISR_PCINT0 quietEnv initState).portd.testBit RESET_OUT = true) ∧
    (busyEnv.pinb (ISR_PCINT0 quietEnv initState).clock &&& (1 <<< RESET_IN) ≠ 0 ∧
      (ISR_PCINT0 busyEnv (ISR_PCINT0 quietEnv initState)).portd.testBit RESET_OUT = false) :=
  ⟨⟨by decide, ((ISR_PCINT0_reset_follows_switch quietEnv initState).1 (by decide)).2⟩,
   ⟨by decide,
    ((ISR_PCINT0_reset_follows_switch busyEnv (ISR_PCINT0 quietEnv initState)).2.1
      (by decide)).2⟩⟩

/-! ## Video channel: `serial_transmit` -/

theorem send_ascii_eq (c : Int) (s : State) :
    send_ascii c s =
      ⟨s.portd, s.clock,
       s.trace ++ (if c = 13 then [Event.uartPutc 10, Event.uartPutc 13] else [Event.uartPutc c])⟩ := by
  by_cases hc : c = 13
  · simp [send_ascii, uart_putc, hc]
  · simp [send_ascii, uart_putc, hc]

theorem toChar_low7 (signedChar : Bool) (r : Nat) :
    toChar signedChar ((r &&& 127 : Nat) : Int) = ((r &&& 127 : Nat) : Int) := by
  have h : r &&& 127 ≤ 127 := Nat.and_le_right
  exact toChar_of_ascii _ _ (by omega) (by omega)

theorem serial_transmit_of_low (signedChar : Bool) (env : Env) (s : State)
    (h : env.pind s.clock &&& (1 <<< VIDEO_DA) = 0) :
    serial_transmit signedChar env s =
      ⟨setBit8 s.portd VIDEO_RDA, s.clock + 1,
       s.trace ++ [Event.portD (setBit8 s.portd VIDEO_RDA), Event.delayUs 1,
                   Event.pinD (env.pind s.clock)]⟩ := by
  have hfst : (GET_VIDEO_DA env (_delay_us 1 (VIDEO_RDA_HI s))).1 =
      env.pind s.clock &&& (1 <<< VIDEO_DA) := rfl
  unfold serial_transmit
  simp only
  rw [if_neg (by rw [hfst]; simp [h])]
  simp [GET_VIDEO_DA, getPinD, _delay_us, VIDEO_RDA_HI, setPortD]

theorem serial_transmit_of_high (signedChar : Bool) (env : Env) (s : State)
    (h : env.pind s.clock &&& (1 <<< VIDEO_DA) ≠ 0) :
    serial_transmit signedChar env s =
      send_ascii ((env.ioxRead (s.clock + 1) 0 VIDEO_GPIO &&& 127 : Nat) : Int)
        ⟨clearBit8 (setBit8 s.portd VIDEO_RDA) VIDEO_RDA, s.clock + 2,
         s.trace ++ [Event.portD (setBit8 s.portd VIDEO_RDA), Event.delayUs 1,
                     Event.pinD (env.pind s.clock),
                     Event.ioxRead 0 VIDEO_GPIO (env.ioxRead (s.clock + 1) 0 VIDEO_GPIO),
                     Event.portD (clearBit8 (setBit8 s.portd VIDEO_RDA) VIDEO_RDA)]⟩ := by
  have hfst : (GET_VIDEO_DA env (_delay_us 1 (VIDEO_RDA_HI s))).1 =
      env.pind s.clock &&& (1 <<< VIDEO_DA) := rfl
  unfold serial_transmit
  simp only
  rw [if_pos (by rw [hfst]; exact h), toChar_low7]
  simp [GET_VIDEO_DA, getPinD, _delay_us, VIDEO_RDA_HI, VIDEO_RDA_LO, setPortD, iox_read]

/-- C4: `serial_transmit` first stores `PORTD` with `VIDEO_RDA` high and waits 1 us; if the
`VIDEO_DA` bit of the `PIND` sample is 0 it does nothing more (no expander access, no byte to the
host, `VIDEO_RDA` left high); otherwise it reads `VIDEO_GPIO` of device 0 once, stores `PORTD`
with `VIDEO_RDA` low and calls `send_ascii` with the value read masked by 127, a value in
0..127. -/
theorem serial_transmit_contract (signedChar : Bool) (env : Env) (s : State) :
    (setBit8 s.portd VIDEO_RDA).testBit VIDEO_RDA = true ∧
    (env.pind s.clock &&& (1 <<< VIDEO_DA) = 0 →
      serial_transmit signedChar env s =
        ⟨setBit8 s.portd VIDEO_RDA, s.clock + 1,
         s.trace ++ [Event.portD (setBit8 s.portd VIDEO_RDA), Event.delayUs 1,
                     Event.pinD (env.pind s.clock)]⟩) ∧
    (env.pind s.clock &&& (1 <<< VIDEO_DA) ≠ 0 →
      serial_transmit signedChar env s =
        send_ascii ((env.ioxRead (s.clock + 1) 0 VIDEO_GPIO &&& 127 : Nat) : Int)
          ⟨clearBit8 (setBit8 s.portd VIDEO_RDA) VIDEO_RDA, s.clock + 2,
           s.trace ++ [Event.portD (setBit8 s.portd VIDEO_RDA), Event.delayUs 1,
                       Event.pinD (env.pind s.clock),
                       Event.ioxRead 0 VIDEO_GPIO (env.ioxRead (s.clock + 1) 0 VIDEO_GPIO),
                       Event.portD (clearBit8 (setBit8 s.portd VIDEO_RDA) VIDEO_RDA)]⟩ ∧
      (clearBit8 (setBit8 s.portd VIDEO_RDA) VIDEO_RDA).testBit VIDEO_RDA = false ∧
      env.ioxRead (s.clock + 1) 0 VIDEO_GPIO &&& 127 ≤ 127 ∧
      (serial_transmit signedChar env s).trace.filter Event.isExpander =
        s.trace.filter Event.isExpander ++
          [Event.ioxRead 0 VIDEO_GPIO (env.ioxRead (s.clock + 1) 0 VIDEO_GPIO)]) := by
  have hV : VIDEO_RDA < 8 := by decide
  refine ⟨testBit_setBit8_self _ _ hV, serial_transmit_of_low signedChar env s, ?_⟩
  intro h
  refine ⟨serial_transmit_of_high signedChar env s h, testBit_clearBit8_self _ _ hV,
    Nat.and_le_right, ?_⟩
  rw [serial_transmit_of_high signedChar env s h, send_ascii_eq]
  split_ifs <;> simp [List.filter_append, Event.isExpander]

/-- C4, witness: with `VIDEO_DA` low nothing is read; with `VIDEO_DA` high and the register
holding `0x8D` the byte 13 goes to `send_ascii`, which emits 10, 13. -/
theorem serial_transmit_contract_witness :
    (quietEnv.pind initState.clock &&& (1 <<< VIDEO_DA) = 0 ∧
      serial_transmit true quietEnv initState =
        ⟨32, 1, [Event.portD 32, Event.delayUs 1, Event.pinD 0]⟩) ∧
    (busyEnv.pind initState.clock &&& (1 <<< VIDEO_DA) ≠ 0 ∧
      serial_transmit true busyEnv initState =
        send_ascii 13 ⟨0, 2, [Event.portD 32, Event.delayUs 1, Event.pinD 255,
          Event.ioxRead 0 VIDEO_GPIO 141, Event.portD 0]⟩) :=
  ⟨⟨by decide, (serial_transmit_contract true quietEnv initState).2.1 (by decide)⟩,
   ⟨by decide, ((serial_transmit_contract true busyEnv initState).2.2 (by decide)).1⟩⟩

/-! ## Main loop body: `pia_exchange` -/

theorem portD_not_mem_pinSamples (env : Env) (v k n : Nat) :
    Event.portD v ∉ pinSamples env k n := by
  intro h
  obtain ⟨w, hw⟩ := pinSamples_mem env _ k n h
  cases hw

/-- What `pia_send` appends to the trace: nothing of the video path, at most one expander
access, no serial read, and port stores that keep the `VIDEO_RDA` bit. -/
theorem pia_send_events (signedChar : Bool) (env : Env) (c : Int) (s : State) :
    ∃ E, (pia_send signedChar env c s).trace = s.trace ++ E ∧
      E.filter Event.isVideoOnly = [] ∧ (E.filter Event.isExpander).length ≤ 1 ∧
      E.filter Event.isUartGetc = [] ∧
      (∀ v, Event.portD v ∈ E → v.testBit VIDEO_RDA = s.portd.testBit VIDEO_RDA) := by
  have hne : VIDEO_RDA ≠ KBD_STROBE := by decide
  have hV : VIDEO_RDA < 8 := by decide
  have b0 : (clearBit8 s.portd KBD_STROBE).testBit VIDEO_RDA = s.portd.testBit VIDEO_RDA :=
    testBit_clearBit8_other _ _ _ hV hne
  have b1 : (setBit8 (clearBit8 s.portd KBD_STROBE) KBD_STROBE).testBit VIDEO_RDA =
      s.portd.testBit VIDEO_RDA := by
    rw [testBit_setBit8_other _ _ _ hV hne, b0]
  have b2 : (clearBit8 (setBit8 (clearBit8 s.portd KBD_STROBE) KBD_STROBE) KBD_STROBE).testBit
      VIDEO_RDA = s.portd.testBit VIDEO_RDA := by
    rw [testBit_clearBit8_other _ _ _ hV hne, b1]
  by_cases h : map_to_ascii signedChar c < 96
  · obtain ⟨n, m, -, -, -, -, heq, -⟩ := pia_send_transfer_shape signedChar env c s h
    refine ⟨[Event.portD (clearBit8 s.portd KBD_STROBE),
        Event.ioxWrite 0 KBD_GPIO (Int.lor (map_to_ascii signedChar c) 128),
        Event.portD (setBit8 (clearBit8 s.portd KBD_STROBE) KBD_STROBE)] ++
        (pinSamples env s.clock n ++
          ([Event.portD
              (clearBit8 (setBit8 (clearBit8 s.portd KBD_STROBE) KBD_STROBE) KBD_STROBE)] ++
            pinSamples env (s.clock + n) m)),
      by rw [heq]; simp only [List.append_assoc], ?_, ?_, ?_, ?_⟩
    · simp [List.filter_append, pinSamples_filter env Event.isVideoOnly (fun _ => rfl),
        Event.isVideoOnly]
    · simp [List.filter_append, pinSamples_filter env Event.isExpander (fun _ => rfl),
        Event.isExpander]
    · simp [List.filter_append, pinSamples_filter env Event.isUartGetc (fun _ => rfl),
        Event.isUartGetc]
    · intro v hv
      simp only [List.mem_append, List.mem_cons, List.mem_singleton, Event.portD.injEq,
        List.not_mem_nil, or_false, portD_not_mem_pinSamples, false_or, reduceCtorEq] at hv
      rcases hv with (hv | hv) | hv
      · rw [hv]; exact b0
      · rw [hv]; exact b1
      · rw [hv]; exact b2
  · rw [pia_send_of_ge signedChar env c s (by omega)]
    refine ⟨[Event.portD (clearBit8 s.portd KBD_STROBE)], rfl, rfl, by simp [Event.isExpander],
      rfl, ?_⟩
    intro v hv
    simp only [List.mem_singleton, Event.portD.injEq] at hv
    rw [hv]; exact b0

/-- What `serial_transmit` appends to the trace: nothing of the keyboard path, at most one
expander access, and port stores that keep the `KBD_STROBE` bit. -/
theorem serial_transmit_events (signedChar : Bool) (env : Env) (s : State) :
    ∃ V, (serial_transmit signedChar env s).trace = s.trace ++ V ∧
      V.filter Event.isKeyboardOnly = [] ∧ (V.filter Event.isExpander).length ≤ 1 ∧
      (∀ v, Event.portD v ∈ V → v.testBit KBD_STROBE = s.portd.testBit KBD_STROBE) := by
  have hne : KBD_STROBE ≠ VIDEO_RDA := by decide
  have hK : KBD_STROBE < 8 := by decide
  have b0 : (setBit8 s.portd VIDEO_RDA).testBit KBD_STROBE = s.portd.testBit KBD_STROBE :=
    testBit_setBit8_other _ _ _ hK hne
  have b1 : (clearBit8 (setBit8 s.portd VIDEO_RDA) VIDEO_RDA).testBit KBD_STROBE =
      s.portd.testBit KBD_STROBE := by
    rw [testBit_clearBit8_other _ _ _ hK hne, b0]
  by_cases h : env.pind s.clock &&& (1 <<< VIDEO_DA) = 0
  · rw [serial_transmit_of_low signedChar env s h]
    refine ⟨_, rfl, rfl, by simp [Event.isExpander], ?_⟩
    intro v hv
    simp only [List.mem_cons, List.mem_singleton, Event.portD.injEq, List.not_mem_nil,
      or_false, reduceCtorEq] at hv
    rw [hv]; exact b0
  · rw [serial_transmit_of_high signedChar env s h, send_ascii_eq]
    refine ⟨[Event.portD (setBit8 s.portd VIDEO_RDA), Event.delayUs 1,
        Event.pinD (env.pind s.clock),
        Event.ioxRead 0 VIDEO_GPIO (env.ioxRead (s.clock + 1) 0 VIDEO_GPIO),
        Event.portD (clearBit8 (setBit8 s.portd VIDEO_RDA) VIDEO_RDA)] ++
        (if ((env.ioxRead (s.clock + 1) 0 VIDEO_GPIO &&& 127 : Nat) : Int) = 13
          then [Event.uartPutc 10, Event.uartPutc 13]
          else [Event.uartPutc ((env.ioxRead (s.clock + 1) 0 VIDEO_GPIO &&& 127 : Nat) : Int)]),
      by simp only [List.append_assoc], ?_, ?_, ?_⟩
    · split_ifs <;> simp [Event.isKeyboardOnly]
    · split_ifs <;> simp [Event.isExpander]
    · intro v hv
      have hv2 : v = setBit8 s.portd VIDEO_RDA ∨
          v = clearBit8 (setBit8 s.portd VIDEO_RDA) VIDEO_RDA := by
        split_ifs at hv <;>
          simpa only [List.mem_append, List.mem_cons, List.mem_singleton, Event.portD.injEq,
            List.not_mem_nil, or_false, false_or, reduceCtorEq] using hv
      rcases hv2 with hv2 | hv2
      · rw [hv2]; exact b0
      · rw [hv2]; exact b1

theorem serial_receive_of_none (signedChar : Bool) (env : Env) (s : State)
    (h : env.uartTest s.clock ≤ 0) :
    serial_receive signedChar env s =
      ⟨s.portd, s.clock + 1, s.trace ++ [Event.uartTest (env.uartTest s.clock)]⟩ := by
  have hfst : (uart_test env s).1 = env.uartTest s.clock := rfl
  unfold serial_receive
  rw [if_neg (by rw [hfst]; omega)]
  rfl

theorem serial_receive_of_some (signedChar : Bool) (env : Env) (s : State)
    (h : 0 < env.uartTest s.clock) :
    serial_receive signedChar env s =
      pia_send signedChar env (env.uartGetc (s.clock + 1))
        ⟨s.portd, s.clock + 2,
         s.trace ++ [Event.uartTest (env.uartTest s.clock),
                     Event.uartGetc (env.uartGetc (s.clock + 1))]⟩ := by
  have hfst : (uart_test env s).1 = env.uartTest s.clock := rfl
  unfold serial_receive
  rw [if_pos (by rw [hfst]; omega)]
  simp [uart_test, uart_getc]

/-- C7: `pia_exchange` is `serial_receive` followed by `serial_transmit`.  `serial_receive`
calls `uart_test` once; if the answer is not above 0 it does nothing more, otherwise it calls
`uart_getc` once and passes the result to one `pia_send`.  The events of one `pia_exchange` are
those of the keyboard path `K` followed by those of the video path `V`: `K` holds no video action,
at most one expander access (a write) and exactly as many `uart_getc` as the test allows; `V` holds
no keyboard action and at most one expander access (a read); port stores in `K` keep `VIDEO_RDA`
and port stores in `V` keep `KBD_STROBE`. -/
theorem pia_exchange_sequence (signedChar : Bool) (env : Env) (s : State) :
    pia_exchange signedChar env s =
      serial_transmit signedChar env (serial_receive signedChar env s) ∧
    (env.uartTest s.clock ≤ 0 →
      serial_receive signedChar env s =
        ⟨s.portd, s.clock + 1, s.trace ++ [Event.uartTest (env.uartTest s.clock)]⟩) ∧
    (0 < env.uartTest s.clock →
      serial_receive signedChar env s =
        pia_send signedChar env (env.uartGetc (s.clock + 1))
          ⟨s.portd, s.clock + 2,
           s.trace ++ [Event.uartTest (env.uartTest s.clock),
                       Event.uartGetc (env.uartGetc (s.clock + 1))]⟩) ∧
    ∃ K V,
      (serial_receive signedChar env s).trace = s.trace ++ K ∧
      (pia_exchange signedChar env s).trace = s.trace ++ K ++ V ∧
      K.filter Event.isVideoOnly = [] ∧ V.filter Event.isKeyboardOnly = [] ∧
      (K.filter Event.isExpander).length ≤ 1 ∧ (V.filter Event.isExpander).length ≤ 1 ∧
      (K.filter Event.isUartGetc).length = (if 0 < env.uartTest s.clock then 1 else 0) ∧
      (∀ v, Event.portD v ∈ K → v.testBit VIDEO_RDA = s.portd.testBit VIDEO_RDA) ∧
      (∀ v, Event.portD v ∈ V →
        v.testBit KBD_STROBE = (serial_receive signedChar env s).portd.testBit KBD_STROBE) := by
  refine ⟨rfl, serial_receive_of_none signedChar env s, serial_receive_of_some signedChar env s,
    ?_⟩
  obtain ⟨V, hV, hV1, hV2, hV3⟩ :=
    serial_transmit_events signedChar env (serial_receive signedChar env s)
  by_cases h : 0 < env.uartTest s.clock
  · have hrec := serial_receive_of_some signedChar env s h
    obtain ⟨E, hE, hE1, hE2, hE3, hE4⟩ :=
      pia_send_events signedChar env (env.uartGetc (s.clock + 1))
        ⟨s.portd, s.clock + 2,
         s.trace ++ [Event.uartTest (env.uartTest s.clock),
                     Event.uartGetc (env.uartGetc (s.clock + 1))]⟩
    have hK : (serial_receive signedChar env s).trace =
        s.trace ++ ([Event.uartTest (env.uartTest s.clock),
                     Event.uartGetc (env.uartGetc (s.clock + 1))] ++ E) := by
      rw [hrec, hE]; simp only [List.append_assoc]
    refine ⟨_, V, hK, ?_, ?_, hV1, ?_, hV2, ?_, ?_, hV3⟩
    · unfold pia_exchange
      rw [hV, hK]
    · simp [List.filter_append, hE1, Event.isVideoOnly]
    · simpa [List.filter_append, Event.isExpander] using hE2
    · simp [List.filter_append, hE3, Event.isUartGetc, h]
    · intro v hv
      simp only [List.mem_append, List.mem_cons, List.mem_singleton, List.not_mem_nil,
        or_false, false_or, reduceCtorEq] at hv
      exact hE4 v hv
  · have hrec := serial_receive_of_none signedChar env s (by omega)
    have hK : (serial_receive signedChar env s).trace =
        s.trace ++ [Event.uartTest (env.uartTest s.clock)] := by
      rw [hrec]
    refine ⟨_, V, hK, ?_, rfl, hV1, by simp [Event.isExpander], hV2, ?_, ?_, hV3⟩
    · unfold pia_exchange
      rw [hV, hK]
    · simp [Event.isUartGetc, h]
    · intro v hv
      simp at hv

/-- C7, witness: with the key `h` pending and the target showing a carriage return, one
`pia_exchange` reads one serial byte, writes 200 to the keyboard register, then reads the video
register and emits 10, 13. -/
theorem pia_exchange_sequence_witness :
    (0 < busyEnv.uartTest initState.clock ∧
      serial_receive true busyEnv initState =
        pia_send true busyEnv 104 ⟨0, 2, [Event.uartTest 1, Event.uartGetc 104]⟩) ∧
    (quietEnv.uartTest initState.clock ≤ 0 ∧
      serial_receive true quietEnv initState = ⟨0, 1, [Event.uartTest 0]⟩) :=
  ⟨⟨by decide, (pia_exchange_sequence true busyEnv initState).2.2.1 (by decide)⟩,
   ⟨by decide, (pia_exchange_sequence true quietEnv initState).2.1 (by decide)⟩⟩

end Pia
